import Mathlib

/-!
Shallow embedding of the revview difference-detection engine
(`src/revview/main/model.py`) and of the page-navigation controllers
(`src/revview/main/controller.py`).

Images are numpy `uint8` arrays, embedded as nested lists of `Nat`:
a 2-dimensional (grayscale) array is `List (List Nat)`, a 3-dimensional
array is `List (List (List Nat))`.  `NPImage` tags the two layouts, since
`DifferenceDetection` dispatches on `shape` (tuple length included).
OpenCV primitives used by the source (`cvtColor`, `threshold`,
`findContours`, `boundingRect`, `contourArea`, `rectangle`) are modelled
below at the level of their documented semantics; fallible conversions
return `Except String` mirroring the `cv2.error` raises.
-/

namespace RevView

/-- A pixel of a 3-channel image: the list of channel values. -/
abbrev Pix := List Nat

/-- A 2-dimensional `uint8` array (grayscale image / mask). -/
abbrev Mat2 := List (List Nat)

/-- A 3-dimensional `uint8` array (color image). -/
abbrev Mat3 := List (List Pix)

/-- A numpy array as passed around by the engine: either a 2-dimensional
(grayscale) or a 3-dimensional (color) array. -/
inductive NPImage where
  | gray (rows : Mat2)
  | color (rows : Mat3)
deriving DecidableEq, Repr

/-- Equality of `Except` values is decidable componentwise (used to evaluate
the pipeline on concrete inputs). -/
instance {ε α : Type} [DecidableEq ε] [DecidableEq α] : DecidableEq (Except ε α) :=
  fun a b =>
    match a, b with
    | .ok x, .ok y =>
        if h : x = y then .isTrue (by rw [h])
        else .isFalse (fun he => h (Except.ok.inj he))
    | .error x, .error y =>
        if h : x = y then .isTrue (by rw [h])
        else .isFalse (fun he => h (Except.error.inj he))
    | .ok _, .error _ => .isFalse (fun he => Except.noConfusion he)
    | .error _, .ok _ => .isFalse (fun he => Except.noConfusion he)

/-- `ndarray.shape`.  For a 2-d array `(h, w)`, for a 3-d array `(h, w, c)`;
the inner lengths are read off the first row / first pixel (numpy arrays are
rectangular, so on well-formed data this is the true shape). -/
def NPImage.shape : NPImage → List Nat
  | .gray rows => [rows.length, (rows.headD []).length]
  | .color rows => [rows.length, (rows.headD []).length, ((rows.headD []).headD []).length]

/-- An RGB color triple, e.g. `Settings.line_color`. -/
abbrev RGB := Nat × Nat × Nat

/-- The persisted settings record (`src/revview/settings/model.py`),
restricted to the fields the engine reads plus the UI styling flag. -/
structure Settings where
  line_color : RGB
  line_width : Int
  ignore_bg_rect : Bool
  bg_color : RGB
  apply_mdesign : Bool
deriving DecidableEq, Repr

/-- Fixed-point grayscale conversion of one RGB pixel, as done by OpenCV
`COLOR_RGB2GRAY` on `uint8` data: `(R*4899 + G*9617 + B*1868 + 2^13) >> 14`. -/
def rgb2grayPix (px : Pix) : Nat :=
  (4899 * px.getD 0 0 + 9617 * px.getD 1 0 + 1868 * px.getD 2 0 + 8192) / 16384

/-- Model of `cv2.cvtColor(src, cv2.COLOR_RGB2GRAY)`: requires a 3-d array
with 3 channels, otherwise `cv2.error` is raised. -/
def cvtColorRGB2GRAY : NPImage → Except String Mat2
  | .gray _ => .error "cvtColor RGB2GRAY: invalid number of channels"
  | .color rows =>
      if ((rows.headD []).headD []).length = 3 then
        .ok (rows.map (fun row => row.map rgb2grayPix))
      else
        .error "cvtColor RGB2GRAY: invalid number of channels"

/-- Model of `cv2.cvtColor(src, cv2.COLOR_GRAY2RGB)`: replicates the single
channel across 3 channels; requires a 2-d array or a 3-d array with a single
channel, otherwise `cv2.error` is raised. -/
def cvtColorGRAY2RGB : NPImage → Except String NPImage
  | .gray rows => .ok (.color (rows.map (fun row => row.map (fun v => [v, v, v]))))
  | .color rows =>
      if ((rows.headD []).headD []).length = 1 then
        .ok (.color (rows.map (fun row => row.map (fun px => let v := px.getD 0 0; [v, v, v]))))
      else
        .error "cvtColor GRAY2RGB: invalid number of channels"

/-- `np.zeros_like(src)`: an all-zero array of the same shape. -/
def zerosLike : NPImage → NPImage
  | .gray rows => .gray (rows.map (fun row => row.map (fun _ => 0)))
  | .color rows => .color (rows.map (fun row => row.map (fun px => px.map (fun _ => 0))))

/-- A contour: a list of `(x, y)` pixel coordinates (column, row), as produced
by `cv2.findContours` with `CHAIN_APPROX_NONE`. -/
abbrev Cnt := List (Nat × Nat)

/-- Shoelace sum of a closed polygon through the points, twice its signed area. -/
def shoelace : List (Int × Int) → Int
  | [] => 0
  | p :: ps =>
      let rec go : Int × Int → List (Int × Int) → Int
        | q, [] => q.1 * p.2 - p.1 * q.2
        | q, r :: rs => (q.1 * r.2 - r.1 * q.2) + go r rs
      go p ps

/-- Model of `cv2.contourArea`: absolute polygon area by Green's formula,
the rational `|shoelace| / 2`. -/
def contourArea (cnt : Cnt) : ℚ :=
  mkRat ((shoelace (cnt.map (fun p => ((p.1 : Int), (p.2 : Int))))).natAbs) 2

/-- Model of `cv2.boundingRect`: the minimal up-right rectangle `(x, y, w, h)`
containing the points (`(0,0,0,0)` for an empty contour). -/
def boundingRect (cnt : Cnt) : Nat × Nat × Nat × Nat :=
  match cnt with
  | [] => (0, 0, 0, 0)
  | p :: ps =>
      let x1 := ps.foldl (fun a q => min a q.1) p.1
      let y1 := ps.foldl (fun a q => min a q.2) p.2
      let x2 := ps.foldl (fun a q => max a q.1) p.1
      let y2 := ps.foldl (fun a q => max a q.2) p.2
      (x1, y1, x2 - x1 + 1, y2 - y1 + 1)

/-- Nonzero positions `(x, y)` of one mask row `row` at row index `r`,
scanning columns from `c` upward. -/
def nzRow (r : Nat) : Nat → List Nat → List (Nat × Nat)
  | _, [] => []
  | c, v :: vs => if v ≠ 0 then (c, r) :: nzRow r (c + 1) vs else nzRow r (c + 1) vs

/-- Nonzero positions of a mask, in row-major scan order. -/
def nzAll : Nat → Mat2 → List (Nat × Nat)
  | _, [] => []
  | r, row :: rest => nzRow r 0 row ++ nzAll (r + 1) rest

/-- 8-neighbourhood adjacency (or equality) of two pixel positions. -/
def adj8 (p q : Nat × Nat) : Bool :=
  max p.1 q.1 - min p.1 q.1 ≤ 1 && max p.2 q.2 - min p.2 q.2 ≤ 1

/-- Insert a pixel into a list of components, merging every component it
touches (8-connectivity). -/
def addPix (comps : List Cnt) (p : Nat × Nat) : List Cnt :=
  let t := comps.partition (fun comp => comp.any (fun q => adj8 p q))
  (p :: t.1.flatten) :: t.2

/-- Model of `cv2.findContours(mask, cv2.RETR_EXTERNAL, cv2.CHAIN_APPROX_NONE)[0]`:
one contour per 8-connected component of the nonzero pixels of the mask.
The border-following point order and the suppression of components nested
inside holes are abstracted (each component is returned as its full pixel
set); no claim below depends on either aspect — only bounding boxes of
components and the empty-mask case are used. -/
def findContours (mask : Mat2) : List Cnt :=
  (nzAll 0 mask).foldl addPix []

/-- Model of `cv2.rectangle(dst, pt1, pt2, color, width)`.  Points are
`(x, y)`; the rectangle is clipped to the image.  `width < 0` fills the
rectangle; `width = 1` paints exactly its one-pixel boundary ring; thicker
strokes are modelled as a centered ring (the claims below never depend on
the stroke pixels of widths other than 1 and -1).  On a 2-d array the first
color component is written, as OpenCV does for single-channel images. -/
def cvRectangle (dst : NPImage) (p1 p2 : Int × Int) (color : RGB) (width : Int) : NPImage :=
  let x1 := min p1.1 p2.1
  let x2 := max p1.1 p2.1
  let y1 := min p1.2 p2.2
  let y2 := max p1.2 p2.2
  let hit : Nat → Nat → Bool := fun r c =>
    if width < 0 then
      x1 ≤ (c : Int) && (c : Int) ≤ x2 && y1 ≤ (r : Int) && (r : Int) ≤ y2
    else
      let o : Int := width / 2
      let i : Int := (width + 1) / 2
      (x1 - o ≤ (c : Int) && (c : Int) ≤ x2 + o && y1 - o ≤ (r : Int) && (r : Int) ≤ y2 + o)
      && !(x1 + i ≤ (c : Int) && (c : Int) ≤ x2 - i && y1 + i ≤ (r : Int) && (r : Int) ≤ y2 - i)
  match dst with
  | .gray rows =>
      .gray (rows.mapIdx (fun r row => row.mapIdx (fun c v => if hit r c then color.1 else v)))
  | .color rows =>
      .color (rows.mapIdx (fun r row =>
        row.mapIdx (fun c px => if hit r c then [color.1, color.2.1, color.2.2] else px)))

/-- `np.all(src[y1:y2, x1:x2] == list(bg))` for a 3-d `src`: every pixel of
the (clipped, possibly empty) slice equals the background triple.  The 2-d
case is unreachable in the pipeline (mask construction already raises on
2-d inputs), so it is modelled as `false`. -/
def bgAll (src : NPImage) (y1 y2 x1 x2 : Nat) (bg : RGB) : Bool :=
  match src with
  | .gray _ => false
  | .color rows =>
      ((rows.drop y1).take (y2 - y1)).all (fun row =>
        ((row.drop x1).take (x2 - x1)).all (fun px => px = [bg.1, bg.2.1, bg.2.2]))

/-- One `cv2.rectangle` invocation recorded by `draw_contours`:
corner points, color and thickness. -/
structure RectCall where
  pt1 : Int × Int
  pt2 : Int × Int
  color : RGB
  width : Int
deriving DecidableEq, Repr

namespace DifferenceDetection

/-- `self._min_cnt_area = 10`. -/
def min_cnt_area : ℚ := 10

/-- `self._bg_del_margin = 20`. -/
def bg_del_margin : Nat := 20

/-- `self._n_merge_mask = 2`. -/
def n_merge_mask : Nat := 2

/-- `self._extend_mergin = 1`. -/
def extend_mergin : Nat := 1

/-- `DifferenceDetection._image_same_size`: `src1.shape == src2.shape`. -/
def image_same_size (src1 src2 : NPImage) : Bool :=
  src1.shape = src2.shape

/-- `DifferenceDetection._convert_to_color`: reads `src.shape[-1]` and
returns `src` unchanged when it is 3, else converts with `GRAY2RGB`. -/
def convert_to_color (src : NPImage) : Except String NPImage :=
  if src.shape.getLastD 0 = 3 then .ok src else cvtColorGRAY2RGB src

/-- `DifferenceDetection._mask_diff_area`: grayscale both images, take the
absolute `int64` difference, narrow to `uint8`, then
`cv2.threshold(diff, 1, 255, cv2.THRESH_BINARY)` (foreground iff `diff > 1`). -/
def mask_diff_area (src1 src2 : NPImage) : Except String Mat2 := do
  let gray1 ← cvtColorRGB2GRAY src1
  let gray2 ← cvtColorRGB2GRAY src2
  let diff := List.zipWith
    (fun r1 r2 => List.zipWith (fun a b : Nat => (((a : Int) - (b : Int)).natAbs) % 256) r1 r2)
    gray1 gray2
  pure (diff.map (fun row => row.map (fun d => if 1 < d then 255 else 0)))

/-- The background-suppression test of one loop iteration of
`DifferenceDetection._draw_contours`: shrink the bounding box `(x, y, w, h)`
inward by `bg_del_margin` on each axis whose extent exceeds
`2 * bg_del_margin`, then test whether the resulting slice of `src` is
entirely the background color (`continue` when it is). -/
def bg_skip (src : NPImage) (bg_rgb : Option RGB) (bg_del_margin : Nat)
    (x y w h : Nat) : Bool :=
  match bg_rgb with
  | none => false
  | some bg =>
      let xs := if w > 2 * bg_del_margin then (x + bg_del_margin, x + w - bg_del_margin)
                else (x, x + w)
      let ys := if h > 2 * bg_del_margin then (y + bg_del_margin, y + h - bg_del_margin)
                else (y, y + h)
      bgAll src ys.1 ys.2 xs.1 xs.2 bg

/-- One loop iteration of `DifferenceDetection._draw_contours`: drop the
contour if its area is below `min_area`, drop it if the background test
says so, otherwise record and apply a `cv2.rectangle` call on its bounding
box extended by `extend_margin`. -/
def draw_step (src : NPImage) (color : RGB) (width : Int) (min_area : ℚ)
    (bg_rgb : Option RGB) (bg_del_margin extend_margin : Nat)
    (acc : NPImage × List RectCall) (cnt : Cnt) : NPImage × List RectCall :=
  if contourArea cnt < min_area then acc
  else
    let b := boundingRect cnt
    let x := b.1
    let y := b.2.1
    let w := b.2.2.1
    let h := b.2.2.2
    if bg_skip src bg_rgb bg_del_margin x y w h then acc
    else
      let p1 : Int × Int := ((x : Int) - extend_margin, (y : Int) - extend_margin)
      let p2 : Int × Int := ((x : Int) + w + extend_margin, (y : Int) + h + extend_margin)
      (cvRectangle acc.1 p1 p2 color width, acc.2 ++ [⟨p1, p2, color, width⟩])

/-- `DifferenceDetection._draw_contours`, additionally returning the list of
`cv2.rectangle` calls it performed (the image is computed by exactly those
calls). -/
def draw_contours (src dst : NPImage) (cnts : List Cnt) (color : RGB) (width : Int)
    (min_area : ℚ) (bg_rgb : Option RGB) (bg_del_margin extend_margin : Nat) :
    NPImage × List RectCall :=
  cnts.foldl (draw_step src color width min_area bg_rgb bg_del_margin extend_margin)
    (dst, [])

/-- The `cv2.rectangle` call a kept contour produces: its bounding box
extended by `e` on all four sides, with the given color and thickness. -/
def draw_call (color : RGB) (width : Int) (e : Nat) (cnt : Cnt) : RectCall :=
  let b := boundingRect cnt
  ⟨((b.1 : Int) - e, (b.2.1 : Int) - e),
   ((b.1 : Int) + b.2.2.1 + e, (b.2.1 : Int) + b.2.2.2 + e), color, width⟩

/-- The survival test of one `_draw_contours` iteration: the contour's area
reaches `min_area` and the background test does not discard it. -/
def keep_contour (src : NPImage) (min_area : ℚ) (bg_rgb : Option RGB)
    (bg_del_margin : Nat) (cnt : Cnt) : Bool :=
  !(decide (contourArea cnt < min_area))
  && !(bg_skip src bg_rgb bg_del_margin (boundingRect cnt).1 (boundingRect cnt).2.1
        (boundingRect cnt).2.2.1 (boundingRect cnt).2.2.2)

/-- Formalisation of the claimed background-suppression rule, in the words of
the specification: the component's bounding box is shrunk inward by the fixed
margin 20 on an axis only if the box exceeds twice that margin (40) on that
axis, and the component is discarded exactly when every pixel of the shrunk
interior on the side's own image equals the configured background color. -/
def backgroundDiscard (src : NPImage) (bg : RGB) (cnt : Cnt) : Bool :=
  let b := boundingRect cnt
  let x := b.1
  let y := b.2.1
  let w := b.2.2.1
  let h := b.2.2.2
  let xs := if 40 < w then (x + 20, x + w - 20) else (x, x + w)
  let ys := if 40 < h then (y + 20, y + h - 20) else (y, y + h)
  bgAll src ys.1 ys.2 xs.1 xs.2 bg

/-- The merge loop of `DifferenceDetection._extract_merged_mask_contour`:
`n` times, draw the current contours filled (width `-1`, white) onto a blank
canvas with the area filter, the optional background suppression and the
extension margin, grayscale the canvas and re-extract contours. -/
def extractLoop (s : Settings) (src : NPImage) : Nat → List Cnt → Except String (List Cnt)
  | 0, cnts => .ok cnts
  | n + 1, cnts => do
      let dmask := (draw_contours src (zerosLike src) cnts (255, 255, 255) (-1)
        min_cnt_area (if s.ignore_bg_rect then some s.bg_color else none)
        bg_del_margin extend_mergin).1
      let dgray ← cvtColorRGB2GRAY dmask
      extractLoop s src n (findContours dgray)

/-- `DifferenceDetection._extract_merged_mask_contour`. -/
def extract_merged_mask_contour (s : Settings) (src : NPImage) (mask : Mat2)
    (n_repeat : Nat) : Except String (List Cnt) :=
  extractLoop s src n_repeat (findContours mask)

/-- `DifferenceDetection._draw_output_contour`: draw the contours outlined on
a copy of `src` with the configured line color and width (all the other
`_draw_contours` parameters keep their defaults: `min_area = 0`,
`bg_rgb = None`, `bg_del_margin = 0`, `extend_margin = 0`).  The recorded
rectangle calls are returned alongside the image. -/
def draw_output_contour (s : Settings) (src : NPImage) (cnts : List Cnt) :
    NPImage × List RectCall :=
  draw_contours src src cnts s.line_color s.line_width 0 none 0 0

/-- `DifferenceDetection.difference`. -/
def difference (s : Settings) (src1 src2 : NPImage) :
    Except String (NPImage × NPImage) :=
  if image_same_size src1 src2 then do
    let c1 ← convert_to_color src1
    let c2 ← convert_to_color src2
    let mask ← mask_diff_area c1 c2
    let cnts1 ← extract_merged_mask_contour s c1 mask n_merge_mask
    let cnts2 ← extract_merged_mask_contour s c2 mask n_merge_mask
    pure ((draw_output_contour s c1 cnts1).1, (draw_output_contour s c2 cnts2).1)
  else
    pure (src1, src2)

end DifferenceDetection

/-- Well-formedness of a 2-d `uint8` array: `h` rows of `w` bytes each. -/
def isMat2 (g : Mat2) (h w : Nat) : Bool :=
  g.length = h && g.all (fun row => row.length = w && row.all (fun v => v < 256))

/-- Well-formedness of a 3-d `uint8` array: `h` rows of `w` pixels of
3 bytes each. -/
def isMat3 (rows : Mat3) (h w : Nat) : Bool :=
  rows.length = h && rows.all (fun row =>
    row.length = w && row.all (fun px => px.length = 3 && px.all (fun v => v < 256)))

/-- The 3-channel promotion of a single-channel image: each intensity
replicated across the three channels (the `GRAY2RGB` result). -/
def promoteGray (g : Mat2) : Mat3 :=
  g.map (fun row => row.map (fun v => [v, v, v]))

/-- Shape-only well-formedness of a 2-d array: `h` rows of length `w`. -/
def Dims2 (g : Mat2) (h w : Nat) : Prop :=
  g.length = h ∧ ∀ row ∈ g, row.length = w

/-- Shape-only well-formedness of a 3-d array with 3 channels. -/
def Dims3 (rows : Mat3) (h w : Nat) : Prop :=
  rows.length = h ∧ ∀ row ∈ rows, row.length = w ∧ ∀ px ∈ row, px.length = 3

/-- A concrete settings record (the shipped defaults plus
`ignore_bg_rect = true`), used by the concrete evaluations below. -/
def demoSettings : Settings :=
  ⟨(255, 85, 0), 2, true, (255, 255, 255), true⟩

/-- A concrete settings record with line width 1 and background suppression
off, used by the concrete evaluations below. -/
def thinSettings : Settings :=
  ⟨(9, 9, 9), 1, false, (255, 255, 255), true⟩

/-!
Page loading (`PPTImage.load_pages` / `TiffImage.load_pages` in
`src/revview/main/model.py`).  The per-page I/O (slide export, `imread`,
`cvtColor`, `compress` / frame `seek`, dtype fixup, `compress`) is abstracted
by a `render` parameter; what the embedding keeps is the loop structure: the
list of loaded pages and the sequence of arguments the progress callback is
invoked with.
-/

/-- `PPTImage.load_pages`: `for i, slide in enumerate(self._prs.Slides, start=1)`,
appending the processed slide and calling `callback(i)` each iteration.
Returns the pages and the callback-argument trace. -/
def PPTImage.load_pages (render : α → β) (slides : List α) : List β × List Nat :=
  let rec go : Nat → List α → List β × List Nat
    | _, [] => ([], [])
    | i, s :: rest =>
        let t := go (i + 1) rest
        (render s :: t.1, i :: t.2)
  go 1 slides

/-- `TiffImage.load_pages`: `for i in range(self._img.n_frames)`, appending the
processed frame and calling `callback(i)` each iteration.  Returns the pages
and the callback-argument trace. -/
def TiffImage.load_pages (render : α → β) (frames : List α) : List β × List Nat :=
  let rec go : Nat → List α → List β × List Nat
    | _, [] => ([], [])
    | i, f :: rest =>
        let t := go (i + 1) rest
        (render f :: t.1, i :: t.2)
  go 0 frames

/-!
Navigation (`src/revview/main/controller.py`).  `PageTurning` holds the
optional loaded image (`self.img`) and the current page (`self.curpage`);
the widget wiring (`setText`, buttons) is out of the model.  Each operation
returns the new state together with the list of pages emitted to the
observer (the `update_func(self.img.get_page(p=self.curpage))` call).
-/

/-- The part of `BaseImage` the navigation reads: the page count. -/
structure BImg where
  total : Int
deriving DecidableEq, Repr

/-- `PageTurning` state: `self.img` (None before `load_image`) and
`self.curpage` (0 before the first navigation). -/
structure PageTurning where
  img : Option BImg
  curpage : Int
deriving DecidableEq, Repr

namespace PageTurning

/-- `PageTurning.is_loaded`. -/
def is_loaded (pt : PageTurning) : Bool :=
  pt.img.isSome

/-- `PageTurning._within_page_range`: `min(max(p, 1), self.img.total)`. -/
def within_page_range (total : Int) (p : Int) : Int :=
  min (max p 1) total

/-- `PageTurning.go_first_page`: guarded on `self.img is None`; sets
`curpage = 1` and emits that page. -/
def go_first_page (pt : PageTurning) : PageTurning × List Int :=
  match pt.img with
  | none => (pt, [])
  | some _ => ({ pt with curpage := 1 }, [1])

/-- `PageTurning.go_last_page`: guarded; sets `curpage = total` and emits. -/
def go_last_page (pt : PageTurning) : PageTurning × List Int :=
  match pt.img with
  | none => (pt, [])
  | some i => ({ pt with curpage := i.total }, [i.total])

/-- `PageTurning.go_prev_page`: guarded; clamps `curpage - 1` and emits. -/
def go_prev_page (pt : PageTurning) : PageTurning × List Int :=
  match pt.img with
  | none => (pt, [])
  | some i =>
      let p := within_page_range i.total (pt.curpage - 1)
      ({ pt with curpage := p }, [p])

/-- `PageTurning.go_next_page`: guarded; clamps `curpage + 1` and emits. -/
def go_next_page (pt : PageTurning) : PageTurning × List Int :=
  match pt.img with
  | none => (pt, [])
  | some i =>
      let p := within_page_range i.total (pt.curpage + 1)
      ({ pt with curpage := p }, [p])

/-- `PageTurning.go_page_no`: guarded; clamps the requested page and emits. -/
def go_page_no (pt : PageTurning) (p : Int) : PageTurning × List Int :=
  match pt.img with
  | none => (pt, [])
  | some i =>
      let q := within_page_range i.total p
      ({ pt with curpage := q }, [q])

end PageTurning

/-- `SyncPageTurning`: the two sides it drives. -/
structure SyncPageTurning where
  page_l : PageTurning
  page_r : PageTurning
deriving DecidableEq, Repr

namespace SyncPageTurning

/-- `SyncPageTurning.go_first_page`: `go_first_page` on both sides. -/
def go_first_page (s : SyncPageTurning) : SyncPageTurning × List Int × List Int :=
  let l := s.page_l.go_first_page
  let r := s.page_r.go_first_page
  (⟨l.1, r.1⟩, l.2, r.2)

/-- `SyncPageTurning.go_last_page`: `go_last_page` on both sides. -/
def go_last_page (s : SyncPageTurning) : SyncPageTurning × List Int × List Int :=
  let l := s.page_l.go_last_page
  let r := s.page_r.go_last_page
  (⟨l.1, r.1⟩, l.2, r.2)

/-- `SyncPageTurning.go_prev_page`: `go_prev_page` on both sides. -/
def go_prev_page (s : SyncPageTurning) : SyncPageTurning × List Int × List Int :=
  let l := s.page_l.go_prev_page
  let r := s.page_r.go_prev_page
  (⟨l.1, r.1⟩, l.2, r.2)

/-- `SyncPageTurning.go_next_page`: `go_next_page` on both sides. -/
def go_next_page (s : SyncPageTurning) : SyncPageTurning × List Int × List Int :=
  let l := s.page_l.go_next_page
  let r := s.page_r.go_next_page
  (⟨l.1, r.1⟩, l.2, r.2)

end SyncPageTurning

/-!
## Theorems
-/

open DifferenceDetection

/-- `getD` through `map`, at an in-range index. -/
theorem mapGetD {α β : Type} (f : α → β) (d1 : α) (d2 : β) :
    ∀ (l : List α) (j : Nat), j < l.length → (l.map f).getD j d2 = f (l.getD j d1) := by
  intro l
  induction l with
  | nil => intro j hj; simp at hj
  | cons a t ih =>
      intro j hj
      cases j with
      | zero => simp
      | succ n =>
          simp only [List.map_cons, List.getD_cons_succ]
          exact ih n (by simpa using hj)

/-- `getD` through `zipWith`, at an index in range of both lists. -/
theorem zipWithGetD {α β γ : Type} (f : α → β → γ) (d1 : α) (d2 : β) (d3 : γ) :
    ∀ (l1 : List α) (l2 : List β) (j : Nat), j < l1.length → j < l2.length →
      (List.zipWith f l1 l2).getD j d3 = f (l1.getD j d1) (l2.getD j d2) := by
  intro l1
  induction l1 with
  | nil => intro l2 j hj1 hj2; simp at hj1
  | cons a t ih =>
      intro l2 j hj1 hj2
      cases l2 with
      | nil => simp at hj2
      | cons b t2 =>
          cases j with
          | zero => simp
          | succ n =>
              simp only [List.zipWith_cons_cons, List.getD_cons_succ]
              exact ih t2 n (by simpa using hj1) (by simpa using hj2)

/-- Unpacked form of the `isMat3` well-formedness check. -/
theorem isMat3_spec (rows : Mat3) (h w : Nat) :
    isMat3 rows h w = true ↔
      rows.length = h ∧ ∀ row ∈ rows, row.length = w ∧
        ∀ px ∈ row, px.length = 3 ∧ ∀ v ∈ px, v < 256 := by
  simp [isMat3, List.all_eq_true]

/-- Unpacked form of the `isMat2` well-formedness check. -/
theorem isMat2_spec (g : Mat2) (h w : Nat) :
    isMat2 g h w = true ↔
      g.length = h ∧ ∀ row ∈ g, row.length = w ∧ ∀ v ∈ row, v < 256 := by
  simp [isMat2, List.all_eq_true]

/-- `isMat3` implies the shape-only predicate. -/
theorem isMat3_dims3 (rows : Mat3) (h w : Nat) (hm : isMat3 rows h w = true) :
    Dims3 rows h w := by
  rw [isMat3_spec] at hm
  exact ⟨hm.1, fun row hr =>
    ⟨(hm.2 row hr).1, fun px hp => ((hm.2 row hr).2 px hp).1⟩⟩

/-- `isMat2` implies the shape-only predicate. -/
theorem isMat2_dims2 (g : Mat2) (h w : Nat) (hm : isMat2 g h w = true) :
    Dims2 g h w := by
  rw [isMat2_spec] at hm
  exact ⟨hm.1, fun row hr => (hm.2 row hr).1⟩

/-- On a nonempty well-shaped 3-d array, the first pixel has 3 channels. -/
theorem dims3_head_len (rows : Mat3) (h w : Nat) (hd : Dims3 rows h w)
    (hh : 0 < h) (hw : 0 < w) : ((rows.headD []).headD []).length = 3 := by
  obtain ⟨hlen, hall⟩ := hd
  cases rows with
  | nil =>
      simp at hlen
      omega
  | cons r t =>
      have hr := hall r (List.mem_cons_self r t)
      cases r with
      | nil =>
          have h1 := hr.1
          simp at h1
          omega
      | cons px pt =>
          have hp := hr.2 px (List.mem_cons_self px pt)
          simp only [List.headD_cons]
          exact hp

/-- `RGB2GRAY` succeeds on a nonempty well-shaped 3-channel array and maps
`rgb2grayPix` over its pixels. -/
theorem cvtColor_ok_of_dims (rows : Mat3) (h w : Nat) (hd : Dims3 rows h w)
    (hh : 0 < h) (hw : 0 < w) :
    cvtColorRGB2GRAY (.color rows) = .ok (rows.map (fun row => row.map rgb2grayPix)) := by
  have h3 := dims3_head_len rows h w hd hh hw
  simp only [cvtColorRGB2GRAY]
  rw [if_pos h3]

/-- An in-range or defaulted `getD` on a byte list stays below 256. -/
theorem getD_lt_256 (px : List Nat) (hv : ∀ v ∈ px, v < 256) (k : Nat) :
    px.getD k 0 < 256 := by
  by_cases hk : k < px.length
  · rw [List.getD_eq_getElem px 0 hk]
    exact hv _ (List.getElem_mem hk)
  · rw [List.getD_eq_default px 0 (by omega)]
    omega

/-- The fixed-point grayscale of a byte pixel is a byte. -/
theorem rgb2grayPix_lt_256 (px : Pix) (hv : ∀ v ∈ px, v < 256) :
    rgb2grayPix px < 256 := by
  have h0 := getD_lt_256 px hv 0
  have h1 := getD_lt_256 px hv 1
  have h2 := getD_lt_256 px hv 2
  unfold rgb2grayPix
  omega

/-- C1 amended: for same-shaped 3-channel pages, the mask pixel produced by
`_mask_diff_area` is 255 exactly when the absolute difference of the two
grayscale intensities at that position is ≥ 2 (strictly greater than 1), and
0 otherwise — a delta of exactly 1 counts as unchanged, because
`cv2.threshold(diff, 1, 255, THRESH_BINARY)` keeps only values above the
threshold. -/
theorem mask_diff_area_threshold (h w : Nat) (rows1 rows2 : Mat3)
    (h1 : isMat3 rows1 h w = true) (h2 : isMat3 rows2 h w = true)
    (i j : Nat) (hi : i < h) (hj : j < w) :
    ∃ m, mask_diff_area (.color rows1) (.color rows2) = .ok m
      ∧ (m.getD i []).getD j 0 =
          (if 2 ≤ (((rgb2grayPix ((rows1.getD i []).getD j []) : Int)
                   - (rgb2grayPix ((rows2.getD i []).getD j []) : Int)).natAbs)
           then 255 else 0) := by
  have hd1 := isMat3_dims3 _ _ _ h1
  have hd2 := isMat3_dims3 _ _ _ h2
  have hh : 0 < h := lt_of_le_of_lt (Nat.zero_le i) hi
  have hw : 0 < w := lt_of_le_of_lt (Nat.zero_le j) hj
  have hg1 := cvtColor_ok_of_dims rows1 h w hd1 hh hw
  have hg2 := cvtColor_ok_of_dims rows2 h w hd2 hh hw
  refine ⟨(List.zipWith
      (fun r1 r2 => List.zipWith
        (fun a b : Nat => (((a : Int) - (b : Int)).natAbs) % 256) r1 r2)
      (rows1.map (fun row => row.map rgb2grayPix))
      (rows2.map (fun row => row.map rgb2grayPix))).map
        (fun row => row.map (fun d => if 1 < d then 255 else 0)), ?_, ?_⟩
  · unfold mask_diff_area
    rw [hg1, hg2]
    rfl
  · have hi1 : i < rows1.length := by rw [hd1.1]; exact hi
    have hi2 : i < rows2.length := by rw [hd2.1]; exact hi
    have hr1 : rows1.getD i [] ∈ rows1 := by
      rw [List.getD_eq_getElem rows1 [] hi1]
      exact List.getElem_mem hi1
    have hr2 : rows2.getD i [] ∈ rows2 := by
      rw [List.getD_eq_getElem rows2 [] hi2]
      exact List.getElem_mem hi2
    have hw1 : (rows1.getD i []).length = w := (hd1.2 _ hr1).1
    have hw2 : (rows2.getD i []).length = w := (hd2.2 _ hr2).1
    have hj1 : j < (rows1.getD i []).length := by rw [hw1]; exact hj
    have hj2 : j < (rows2.getD i []).length := by rw [hw2]; exact hj
    have hig1 : i < (rows1.map (fun row => row.map rgb2grayPix)).length := by
      rw [List.length_map]
      exact hi1
    have hig2 : i < (rows2.map (fun row => row.map rgb2grayPix)).length := by
      rw [List.length_map]
      exact hi2
    have hlD : i < (List.zipWith
        (fun r1 r2 => List.zipWith
          (fun a b : Nat => (((a : Int) - (b : Int)).natAbs) % 256) r1 r2)
        (rows1.map (fun row => row.map rgb2grayPix))
        (rows2.map (fun row => row.map rgb2grayPix))).length := by
      rw [List.length_zipWith, List.length_map, List.length_map]
      omega
    have t1 := mapGetD
      (fun row : List Nat => row.map (fun d => if 1 < d then 255 else 0))
      ([] : List Nat) ([] : List Nat) _ i hlD
    have t2 := zipWithGetD
      (fun r1 r2 : List Nat => List.zipWith
        (fun a b : Nat => (((a : Int) - (b : Int)).natAbs) % 256) r1 r2)
      ([] : List Nat) ([] : List Nat) ([] : List Nat)
      (rows1.map (fun row => row.map rgb2grayPix))
      (rows2.map (fun row => row.map rgb2grayPix)) i hig1 hig2
    have t3 := mapGetD (fun row : List Pix => row.map rgb2grayPix)
      ([] : List Pix) ([] : List Nat) rows1 i hi1
    have t4 := mapGetD (fun row : List Pix => row.map rgb2grayPix)
      ([] : List Pix) ([] : List Nat) rows2 i hi2
    rw [t1, t2, t3, t4]
    have hjz : j < (List.zipWith
        (fun a b : Nat => (((a : Int) - (b : Int)).natAbs) % 256)
        ((rows1.getD i []).map rgb2grayPix)
        ((rows2.getD i []).map rgb2grayPix)).length := by
      rw [List.length_zipWith, List.length_map, List.length_map, hw1, hw2]
      omega
    have hjm1 : j < ((rows1.getD i []).map rgb2grayPix).length := by
      rw [List.length_map]
      exact hj1
    have hjm2 : j < ((rows2.getD i []).map rgb2grayPix).length := by
      rw [List.length_map]
      exact hj2
    have t5 := mapGetD (fun d : Nat => if 1 < d then 255 else 0) 0 0 _ j hjz
    have t6 := zipWithGetD
      (fun a b : Nat => (((a : Int) - (b : Int)).natAbs) % 256) 0 0 0
      ((rows1.getD i []).map rgb2grayPix)
      ((rows2.getD i []).map rgb2grayPix) j hjm1 hjm2
    have t7 : ((rows1.getD i []).map rgb2grayPix).getD j 0
        = rgb2grayPix ((rows1.getD i []).getD j []) :=
      mapGetD rgb2grayPix ([] : Pix) 0 _ j hj1
    have t8 : ((rows2.getD i []).map rgb2grayPix).getD j 0
        = rgb2grayPix ((rows2.getD i []).getD j []) :=
      mapGetD rgb2grayPix ([] : Pix) 0 _ j hj2
    rw [t5, t6, t7, t8]
    have hpx1 : (rows1.getD i []).getD j [] ∈ rows1.getD i [] := by
      rw [List.getD_eq_getElem _ [] hj1]
      exact List.getElem_mem hj1
    have hpx2 : (rows2.getD i []).getD j [] ∈ rows2.getD i [] := by
      rw [List.getD_eq_getElem _ [] hj2]
      exact List.getElem_mem hj2
    rw [isMat3_spec] at h1 h2
    have hb1 : rgb2grayPix ((rows1.getD i []).getD j []) < 256 :=
      rgb2grayPix_lt_256 _ (fun v hv => ((h1.2 _ hr1).2 _ hpx1).2 v hv)
    have hb2 : rgb2grayPix ((rows2.getD i []).getD j []) < 256 :=
      rgb2grayPix_lt_256 _ (fun v hv => ((h2.2 _ hr2).2 _ hpx2).2 v hv)
    have habs : (((rgb2grayPix ((rows1.getD i []).getD j []) : Int)
        - (rgb2grayPix ((rows2.getD i []).getD j []) : Int)).natAbs) < 256 := by
      omega
    beta_reduce
    rw [Nat.mod_eq_of_lt habs]
    exact if_congr (by omega) rfl rfl

/-- Witness for `mask_diff_area_threshold` at a pair of 1×1 pages with
grayscale intensities 0 and 9. -/
theorem mask_diff_area_threshold_witness :
    isMat3 [[[0, 0, 0]]] 1 1 = true
    ∧ ∃ m, mask_diff_area (.color [[[0, 0, 0]]]) (.color [[[9, 9, 9]]]) = .ok m
      ∧ (m.getD 0 []).getD 0 0 =
          (if 2 ≤ (((rgb2grayPix (([[[0, 0, 0]]].getD 0 []).getD 0 []) : Int)
                   - (rgb2grayPix (([[[9, 9, 9]]].getD 0 []).getD 0 []) : Int)).natAbs)
           then 255 else 0) :=
  ⟨by decide,
   mask_diff_area_threshold 1 1 [[[0, 0, 0]]] [[[9, 9, 9]]]
     (by decide) (by decide) 0 0 (by decide) (by decide)⟩

/-- A pointwise property of `mapIdx` results. -/
theorem mapIdx_forall {α β : Type} (p : β → Prop) :
    ∀ (l : List α) (f : Nat → α → β),
      (∀ i a, a ∈ l → p (f i a)) → ∀ b ∈ l.mapIdx f, p b := by
  intro l
  induction l with
  | nil => intro f hp b hb; simp at hb
  | cons a t ih =>
      intro f hp b hb
      rw [List.mapIdx_cons] at hb
      rcases List.mem_cons.mp hb with hcase | hcase
      · rw [hcase]
        exact hp 0 a (List.mem_cons_self a t)
      · exact ih (fun i => f (i + 1))
          (fun i x hx => hp (i + 1) x (List.mem_cons_of_mem a hx)) b hcase

/-- `cv2.rectangle` keeps a well-shaped 3-channel image well-shaped. -/
theorem cvRectangle_color_dims (rows : Mat3) (h w : Nat) (hd : Dims3 rows h w)
    (p1 p2 : Int × Int) (color : RGB) (width : Int) :
    ∃ rows2 : Mat3, cvRectangle (.color rows) p1 p2 color width = .color rows2
      ∧ Dims3 rows2 h w := by
  refine ⟨_, rfl, ?_, ?_⟩
  · simpa using hd.1
  · intro row2 hrow2
    refine mapIdx_forall
      (fun r : List Pix => r.length = w ∧ ∀ px ∈ r, px.length = 3)
      rows _ ?_ row2 hrow2
    intro i a ha
    constructor
    · simpa using (hd.2 a ha).1
    · intro px hpx
      refine mapIdx_forall (fun q : Pix => q.length = 3) a _ ?_ px hpx
      intro c v hv
      split
      · split
        · simp
        · exact (hd.2 a ha).2 v hv
      · split
        · simp
        · exact (hd.2 a ha).2 v hv

/-- `np.zeros_like` of a well-shaped 3-channel image is well-shaped. -/
theorem zerosLike_color_dims (rows : Mat3) (h w : Nat) (hd : Dims3 rows h w) :
    Dims3 (rows.map (fun row => row.map (fun px => px.map (fun _ => 0)))) h w := by
  constructor
  · simpa using hd.1
  · intro row hrow
    rw [List.mem_map] at hrow
    obtain ⟨r0, hr0, heq⟩ := hrow
    subst heq
    constructor
    · simpa using (hd.2 r0 hr0).1
    · intro px hpx
      rw [List.mem_map] at hpx
      obtain ⟨p0, hp0, he2⟩ := hpx
      subst he2
      simpa using (hd.2 r0 hr0).2 p0 hp0

/-- The 3-channel promotion of a well-shaped 2-d array is well-shaped. -/
theorem promoteGray_dims (g : Mat2) (h w : Nat) (hd : Dims2 g h w) :
    Dims3 (promoteGray g) h w := by
  constructor
  · simpa [promoteGray] using hd.1
  · intro row hrow
    rw [promoteGray, List.mem_map] at hrow
    obtain ⟨r0, hr0, heq⟩ := hrow
    subst heq
    constructor
    · simpa using hd.2 r0 hr0
    · intro px hpx
      rw [List.mem_map] at hpx
      obtain ⟨v, _, he2⟩ := hpx
      subst he2
      rfl

/-- One `_draw_contours` iteration either keeps the canvas or paints one
rectangle on it. -/
theorem draw_step_fst (src : NPImage) (color : RGB) (width : Int) (minA : ℚ)
    (bg : Option RGB) (m e : Nat) (st : NPImage × List RectCall) (c : Cnt) :
    (draw_step src color width minA bg m e st c).1 = st.1
    ∨ ∃ p1 p2, (draw_step src color width minA bg m e st c).1
        = cvRectangle st.1 p1 p2 color width := by
  by_cases ha : contourArea c < minA
  · left
    simp [draw_step, ha]
  · by_cases hb : bg_skip src bg m (boundingRect c).1 (boundingRect c).2.1
        (boundingRect c).2.2.1 (boundingRect c).2.2.2
    · left
      simp [draw_step, ha, hb]
    · right
      refine ⟨(((boundingRect c).1 : Int) - e, ((boundingRect c).2.1 : Int) - e),
              (((boundingRect c).1 : Int) + (boundingRect c).2.2.1 + e,
               ((boundingRect c).2.1 : Int) + (boundingRect c).2.2.2 + e), ?_⟩
      simp [draw_step, ha, hb]

/-- The `_draw_contours` fold keeps a well-shaped 3-channel canvas
well-shaped. -/
theorem draw_fold_dims (src : NPImage) (color : RGB) (width : Int) (minA : ℚ)
    (bg : Option RGB) (m e : Nat) (h w : Nat) :
    ∀ (cnts : List Cnt) (rows : Mat3) (acc : List RectCall), Dims3 rows h w →
      ∃ rows2 : Mat3,
        (cnts.foldl (draw_step src color width minA bg m e) (.color rows, acc)).1
            = .color rows2
        ∧ Dims3 rows2 h w := by
  intro cnts
  induction cnts with
  | nil => exact fun rows acc hd => ⟨rows, rfl, hd⟩
  | cons c t ih =>
      intro rows acc hd
      rw [List.foldl_cons]
      have hst : ∃ rows1 : Mat3,
          (draw_step src color width minA bg m e (.color rows, acc) c).1 = .color rows1
          ∧ Dims3 rows1 h w := by
        rcases draw_step_fst src color width minA bg m e (.color rows, acc) c with hk | ⟨p1, p2, hk⟩
        · exact ⟨rows, hk, hd⟩
        · obtain ⟨rows1, he, hd1⟩ := cvRectangle_color_dims rows h w hd p1 p2 color width
          exact ⟨rows1, by rw [hk]; exact he, hd1⟩
      obtain ⟨rows1, he1, hd1⟩ := hst
      have hpair : draw_step src color width minA bg m e (.color rows, acc) c
          = (.color rows1, (draw_step src color width minA bg m e (.color rows, acc) c).2) := by
        rw [← he1]
      rw [hpair]
      exact ih rows1 _ hd1

/-- The shape of a nonempty well-shaped 3-channel image. -/
theorem shape_color_of_dims (rows : Mat3) (h w : Nat) (hd : Dims3 rows h w)
    (hh : 0 < h) (hw : 0 < w) : (NPImage.color rows).shape = [h, w, 3] := by
  cases rows with
  | nil =>
      have := hd.1
      simp at this
      omega
  | cons r t =>
      have hr := hd.2 r (List.mem_cons_self r t)
      cases r with
      | nil =>
          have h1 := hr.1
          simp at h1
          omega
      | cons px pt =>
          have hp := hr.2 px (List.mem_cons_self px pt)
          simp only [NPImage.shape, List.headD_cons]
          rw [hd.1, hr.1, hp]

/-- The shape of a nonempty well-shaped 2-d image. -/
theorem shape_gray_of_dims (g : Mat2) (h w : Nat) (hd : Dims2 g h w)
    (hh : 0 < h) : (NPImage.gray g).shape = [h, w] := by
  cases g with
  | nil =>
      have := hd.1
      simp at this
      omega
  | cons r t =>
      have hr := hd.2 r (List.mem_cons_self r t)
      simp only [NPImage.shape, List.headD_cons]
      rw [hd.1, hr]

/-- `_convert_to_color` on a well-shaped 3-channel page is the identity. -/
theorem convert_color_of_dims (rows : Mat3) (h w : Nat) (hd : Dims3 rows h w)
    (hh : 0 < h) (hw : 0 < w) :
    convert_to_color (.color rows) = .ok (.color rows) := by
  have hs := shape_color_of_dims rows h w hd hh hw
  simp only [convert_to_color]
  rw [hs]
  simp

/-- `_convert_to_color` promotes a nonempty 2-d page whose width is not 3. -/
theorem convert_gray_of_dims (g : Mat2) (h w : Nat) (hd : Dims2 g h w)
    (hh : 0 < h) (hw3 : w ≠ 3) :
    convert_to_color (.gray g) = .ok (.color (promoteGray g)) := by
  have hs := shape_gray_of_dims g h w hd hh
  simp only [convert_to_color]
  rw [hs]
  simp [hw3]
  rfl

/-- `bind` on a successful `Except` applies the continuation. -/
theorem exceptBindOk {ε α β : Type} (a : α) (f : α → Except ε β) :
    (Except.ok (ε := ε) a >>= f) = f a := rfl

/-- `_mask_diff_area` succeeds on two nonempty well-shaped 3-channel pages. -/
theorem mask_ok_of_dims (rows1 rows2 : Mat3) (h w : Nat) (hd1 : Dims3 rows1 h w)
    (hd2 : Dims3 rows2 h w) (hh : 0 < h) (hw : 0 < w) :
    ∃ m, mask_diff_area (.color rows1) (.color rows2) = .ok m := by
  refine ⟨(List.zipWith
      (fun r1 r2 => List.zipWith
        (fun a b : Nat => (((a : Int) - (b : Int)).natAbs) % 256) r1 r2)
      (rows1.map (fun row => row.map rgb2grayPix))
      (rows2.map (fun row => row.map rgb2grayPix))).map
        (fun row => row.map (fun d => if 1 < d then 255 else 0)), ?_⟩
  unfold mask_diff_area
  rw [cvtColor_ok_of_dims rows1 h w hd1 hh hw, cvtColor_ok_of_dims rows2 h w hd2 hh hw]
  rfl

/-- The merge loop succeeds on a nonempty well-shaped 3-channel side image. -/
theorem extractLoop_ok (s : Settings) (rows : Mat3) (h w : Nat)
    (hd : Dims3 rows h w) (hh : 0 < h) (hw : 0 < w) :
    ∀ (n : Nat) (cnts : List Cnt), ∃ out, extractLoop s (.color rows) n cnts = .ok out := by
  intro n
  induction n with
  | zero => exact fun cnts => ⟨cnts, rfl⟩
  | succ k ih =>
      intro cnts
      have hdz := zerosLike_color_dims rows h w hd
      obtain ⟨rows2, he2, hd2⟩ := draw_fold_dims (.color rows) (255, 255, 255) (-1)
        min_cnt_area (if s.ignore_bg_rect then some s.bg_color else none)
        bg_del_margin extend_mergin h w cnts
        (rows.map (fun row => row.map (fun px => px.map (fun _ => 0)))) [] hdz
      have hok := cvtColor_ok_of_dims rows2 h w hd2 hh hw
      simp only [extractLoop, draw_contours, zerosLike]
      rw [he2, hok, exceptBindOk]
      exact ih (findContours (rows2.map (fun row => row.map rgb2grayPix)))

/-- `_extract_merged_mask_contour` succeeds on a nonempty well-shaped
3-channel side image. -/
theorem extract_ok (s : Settings) (rows : Mat3) (h w : Nat)
    (hd : Dims3 rows h w) (hh : 0 < h) (hw : 0 < w) (mask : Mat2) (n : Nat) :
    ∃ out, extract_merged_mask_contour s (.color rows) mask n = .ok out := by
  unfold extract_merged_mask_contour
  exact extractLoop_ok s rows h w hd hh hw n (findContours mask)

/-- The per-pixel absolute difference of a row with itself is zero. -/
theorem zipWith_diff_self : ∀ l : List Nat,
    List.zipWith (fun a b : Nat => (((a : Int) - (b : Int)).natAbs) % 256) l l
      = l.map (fun _ => 0) := by
  intro l
  induction l with
  | nil => rfl
  | cons a t ih => simp [ih]

/-- The per-pixel absolute difference of a 2-d array with itself is zero. -/
theorem zipWith2_diff_self : ∀ g : Mat2,
    List.zipWith (fun r1 r2 => List.zipWith
      (fun a b : Nat => (((a : Int) - (b : Int)).natAbs) % 256) r1 r2) g g
      = g.map (fun r => r.map (fun _ => 0)) := by
  intro g
  induction g with
  | nil => rfl
  | cons r t ih => simp [ih, zipWith_diff_self]

/-- `_mask_diff_area` of a page against itself is an all-zero mask. -/
theorem mask_self_zero (rows : Mat3) (h w : Nat) (hd : Dims3 rows h w)
    (hh : 0 < h) (hw : 0 < w) :
    ∃ mz, mask_diff_area (.color rows) (.color rows) = .ok mz
      ∧ ∀ row ∈ mz, ∀ v ∈ row, v = 0 := by
  have hg := cvtColor_ok_of_dims rows h w hd hh hw
  refine ⟨(List.zipWith
      (fun r1 r2 => List.zipWith
        (fun a b : Nat => (((a : Int) - (b : Int)).natAbs) % 256) r1 r2)
      (rows.map (fun row => row.map rgb2grayPix))
      (rows.map (fun row => row.map rgb2grayPix))).map
        (fun row => row.map (fun d => if 1 < d then 255 else 0)), ?_, ?_⟩
  · unfold mask_diff_area
    rw [hg]
    rfl
  · intro row hrow v hv
    rw [zipWith2_diff_self] at hrow
    obtain ⟨a, ha, har⟩ := List.mem_map.mp hrow
    rw [← har] at hv
    obtain ⟨d0, hd0, hdv⟩ := List.mem_map.mp hv
    obtain ⟨b, hb, hab⟩ := List.mem_map.mp ha
    rw [← hab] at hd0
    obtain ⟨u, hu, hu0⟩ := List.mem_map.mp hd0
    rw [← hdv, ← hu0]
    rfl

/-- A row of zeros contributes no nonzero pixel. -/
theorem nzRow_zero : ∀ (row : List Nat), (∀ v ∈ row, v = 0) →
    ∀ (r c : Nat), nzRow r c row = [] := by
  intro row
  induction row with
  | nil => intro _ r c; rfl
  | cons v t ih =>
      intro hz r c
      have hv : v = 0 := hz v (List.mem_cons_self v t)
      subst hv
      simp only [nzRow]
      rw [if_neg (by omega : ¬ (0 : Nat) ≠ 0)]
      exact ih (fun u hu => hz u (List.mem_cons_of_mem 0 hu)) r (c + 1)

/-- An all-zero mask has no nonzero pixel. -/
theorem nzAll_zero : ∀ (m : Mat2), (∀ row ∈ m, ∀ v ∈ row, v = 0) →
    ∀ r, nzAll r m = [] := by
  intro m
  induction m with
  | nil => intro _ r; rfl
  | cons row t ih =>
      intro hz r
      simp only [nzAll]
      rw [nzRow_zero row (hz row (List.mem_cons_self row t)) r 0,
        ih (fun u hu => hz u (List.mem_cons_of_mem row hu)) (r + 1)]
      rfl

/-- `findContours` of an all-zero mask finds nothing. -/
theorem findContours_zero (m : Mat2) (hz : ∀ row ∈ m, ∀ v ∈ row, v = 0) :
    findContours m = [] := by
  unfold findContours
  rw [nzAll_zero m hz 0]
  rfl

/-- `getD` on a constant-zero list is zero. -/
theorem getD_zero_map {α : Type} (l : List α) (k : Nat) :
    (l.map (fun _ => (0 : Nat))).getD k 0 = 0 := by
  by_cases hk : k < (l.map (fun _ => (0 : Nat))).length
  · rw [List.getD_eq_getElem _ _ hk]
    simp
  · rw [List.getD_eq_default _ _ (by omega)]

/-- The grayscale of an all-zero pixel is zero. -/
theorem rgb2grayPix_zeros {α : Type} (px : List α) :
    rgb2grayPix (px.map (fun _ => 0)) = 0 := by
  unfold rgb2grayPix
  rw [getD_zero_map, getD_zero_map, getD_zero_map]

/-- The grayscale of the zero canvas is all-zero. -/
theorem zeros_gray_allzero (rows : Mat3) :
    ∀ row ∈ ((rows.map (fun row => row.map (fun px => px.map (fun _ => 0)))).map
        (fun row => row.map rgb2grayPix)), ∀ v ∈ row, v = 0 := by
  intro row hrow v hv
  obtain ⟨a, ha, har⟩ := List.mem_map.mp hrow
  rw [← har] at hv
  obtain ⟨px0, hpx0, hpv⟩ := List.mem_map.mp hv
  obtain ⟨b, hb, hab⟩ := List.mem_map.mp ha
  rw [← hab] at hpx0
  obtain ⟨q, hq, hqe⟩ := List.mem_map.mp hpx0
  rw [← hpv, ← hqe]
  exact rgb2grayPix_zeros q

/-- The merge loop started with no contours stays with no contours. -/
theorem extractLoop_nil (s : Settings) (rows : Mat3) (h w : Nat)
    (hd : Dims3 rows h w) (hh : 0 < h) (hw : 0 < w) :
    ∀ n, extractLoop s (.color rows) n [] = .ok [] := by
  intro n
  induction n with
  | zero => rfl
  | succ k ih =>
      have hdz := zerosLike_color_dims rows h w hd
      have hok := cvtColor_ok_of_dims _ h w hdz hh hw
      have he2 : (List.foldl (draw_step (.color rows) (255, 255, 255) (-1)
            min_cnt_area (if s.ignore_bg_rect then some s.bg_color else none)
            bg_del_margin extend_mergin)
          (.color (rows.map (fun row => row.map (fun px => px.map (fun _ => 0)))), [])
          ([] : List Cnt)).1
          = .color (rows.map (fun row => row.map (fun px => px.map (fun _ => 0)))) := rfl
      simp only [extractLoop, draw_contours, zerosLike]
      rw [he2, hok, exceptBindOk]
      rw [findContours_zero _ (zeros_gray_allzero rows)]
      exact ih

/-- Core of the self-diff property: once conversion yields a well-shaped
3-channel page, `difference` of the page against itself returns two untouched
copies of it. -/
theorem difference_self_core (s : Settings) (h w : Nat) (rows : Mat3)
    (hd : Dims3 rows h w) (hh : 0 < h) (hw : 0 < w) (src : NPImage)
    (hsame : image_same_size src src = true)
    (hconv : convert_to_color src = .ok (.color rows)) :
    difference s src src = .ok (.color rows, .color rows) := by
  unfold difference
  rw [if_pos hsame, hconv]
  simp only [exceptBindOk]
  obtain ⟨mz, hmz, hz0⟩ := mask_self_zero rows h w hd hh hw
  rw [hmz]
  simp only [exceptBindOk]
  unfold extract_merged_mask_contour
  rw [findContours_zero mz hz0]
  rw [extractLoop_nil s rows h w hd hh hw n_merge_mask]
  simp only [exceptBindOk]
  rfl

/-- C2: for every config and every pair of input pages whose dimensions
differ (height, width and channel count all compared through the shape
tuple), `difference` returns the pair unchanged and raises no error. -/
theorem difference_pass_through (s : Settings) (a b : NPImage)
    (h : a.shape ≠ b.shape) : difference s a b = .ok (a, b) := by
  simp [difference, image_same_size, h]
  rfl

/-- Witness for `difference_pass_through` at a 2×2 page against a 1×1 page. -/
theorem difference_pass_through_witness :
    (NPImage.gray [[1, 2], [3, 4]]).shape ≠ (NPImage.gray [[1]]).shape
    ∧ difference demoSettings (.gray [[1, 2], [3, 4]]) (.gray [[1]])
        = .ok (.gray [[1, 2], [3, 4]], .gray [[1]]) :=
  ⟨by decide, difference_pass_through demoSettings _ _ (by decide)⟩

/-- C8: left total 5 and right total 3, both at page 1; three synchronized
`go_next_page` calls leave the left cursor at page 4 and the right at 3. -/
theorem sync_drift :
    let st : SyncPageTurning := ⟨⟨some ⟨5⟩, 1⟩, ⟨some ⟨3⟩, 1⟩⟩
    let st3 := (((st.go_next_page).1.go_next_page).1.go_next_page).1
    st3.page_l.curpage = 4 ∧ st3.page_r.curpage = 3 := by
  decide

/-- C9: on a loaded cursor with total 5, `go_last_page` positions at 5, a
subsequent `go_next_page` stays at 5, `go_page_no 0` gives 1, `go_page_no 99`
gives 5, and in general `go_page_no` clamps the requested page into
`[1, total]` via `_within_page_range`. -/
theorem page_turning_clamps (pt : PageTurning) (i : BImg)
    (h : pt.img = some i) (ht : i.total = 5) :
    ((pt.go_last_page).1.curpage = 5)
    ∧ (((pt.go_last_page).1.go_next_page).1.curpage = 5)
    ∧ ((pt.go_page_no 0).1.curpage = 1)
    ∧ ((pt.go_page_no 99).1.curpage = 5)
    ∧ (∀ p : Int, (pt.go_page_no p).1.curpage = min (max p 1) i.total) := by
  simp [PageTurning.go_last_page, PageTurning.go_next_page, PageTurning.go_page_no,
    PageTurning.within_page_range, h, ht]

/-- Witness for `page_turning_clamps` at the cursor `{img := total 5, curpage := 2}`. -/
theorem page_turning_clamps_witness :
    (((⟨some ⟨5⟩, 2⟩ : PageTurning).go_page_no 0).1.curpage = 1)
    ∧ (((⟨some ⟨5⟩, 2⟩ : PageTurning).go_page_no 99).1.curpage = 5) :=
  ⟨(page_turning_clamps ⟨some ⟨5⟩, 2⟩ ⟨5⟩ rfl rfl).2.2.1,
   (page_turning_clamps ⟨some ⟨5⟩, 2⟩ ⟨5⟩ rfl rfl).2.2.2.1⟩

/-- C10: every navigation operation on a cursor with no source attached is a
guarded no-op: the state is returned unchanged and no page is emitted to the
observer. -/
theorem unloaded_cursor_noop (pt : PageTurning) (h : pt.img = none) :
    pt.go_first_page = (pt, [])
    ∧ pt.go_last_page = (pt, [])
    ∧ pt.go_prev_page = (pt, [])
    ∧ pt.go_next_page = (pt, [])
    ∧ ∀ p : Int, pt.go_page_no p = (pt, []) := by
  simp [PageTurning.go_first_page, PageTurning.go_last_page, PageTurning.go_prev_page,
    PageTurning.go_next_page, PageTurning.go_page_no, h]

/-- Witness for `unloaded_cursor_noop` at the fresh cursor `{img := none, curpage := 0}`. -/
theorem unloaded_cursor_noop_witness :
    (⟨none, 0⟩ : PageTurning).go_first_page = (⟨none, 0⟩, [])
    ∧ (⟨none, 0⟩ : PageTurning).go_page_no 7 = (⟨none, 0⟩, []) :=
  ⟨(unloaded_cursor_noop ⟨none, 0⟩ rfl).1,
   (unloaded_cursor_noop ⟨none, 0⟩ rfl).2.2.2.2 7⟩

/-- C1 counterexample: two 1×1 pages whose grayscale intensities differ by
exactly 1 (so the absolute difference is ≥ 1): the mask pixel is 0, not the
255 the claim predicts — `cv2.threshold(diff, 1, 255, THRESH_BINARY)` keeps
only differences strictly greater than 1. -/
theorem mask_threshold_cex :
    mask_diff_area (.color [[[0, 0, 0]]]) (.color [[[1, 1, 1]]]) = .ok [[0]]
    ∧ 1 ≤ ((rgb2grayPix [0, 0, 0] : Int) - (rgb2grayPix [1, 1, 1] : Int)).natAbs
    ∧ mask_diff_area (.color [[[0, 0, 0]]]) (.color [[[1, 1, 1]]]) ≠ .ok [[255]] := by
  decide

/-- C3 counterexample: a single-channel 1×1 page diffed against a 3-channel
1×1 page takes the size-mismatch pass-through, so the first returned image is
still single-channel — promotion does not make every diffed pair 3-channel. -/
theorem difference_channel_cex :
    difference demoSettings (.gray [[5]]) (.color [[[5, 5, 5]]])
      = .ok (.gray [[5]], .color [[[5, 5, 5]]])
    ∧ (NPImage.gray [[5]]).shape.length ≠ 3 := by
  decide

/-- C4 counterexample: self-diffing the single-channel page `[[7]]` returns
the two 3-channel promotions of the page, which are not pixel-for-pixel equal
to (a copy of) the input page. -/
theorem self_diff_cex :
    difference demoSettings (.gray [[7]]) (.gray [[7]])
      = .ok (.color [[[7, 7, 7]]], .color [[[7, 7, 7]]])
    ∧ NPImage.color [[[7, 7, 7]]] ≠ NPImage.gray [[7]] := by
  decide

/-- C5 counterexample: the final annotation of a region with bounding box
`(2, 2, 3, 3)` is the rectangle with corners `(2, 2)` and `(5, 5)` — the
exact bounding box — not the corners `(1, 1)` and `(6, 6)` that the claimed
1-pixel outward extension predicts (`_draw_output_contour` leaves
`extend_margin` at its default 0). -/
theorem final_draw_extension_cex :
    (draw_output_contour thinSettings
        (.color (List.replicate 7 (List.replicate 7 [0, 0, 0])))
        [[(2, 2), (4, 2), (4, 4), (2, 4)]]).2
      = [⟨(2, 2), (5, 5), (9, 9, 9), 1⟩]
    ∧ (⟨(2, 2), (5, 5), (9, 9, 9), 1⟩ : RectCall) ≠ ⟨(1, 1), (6, 6), (9, 9, 9), 1⟩ := by
  decide

/-- The rectangle calls `_draw_contours` performs are exactly the surviving
contours' bounding boxes, extended by `extend_margin`, in order. -/
theorem draw_contours_calls (src : NPImage) (color : RGB) (width : Int)
    (minA : ℚ) (bg : Option RGB) (m e : Nat) (cnts : List Cnt) (dst : NPImage) :
    (draw_contours src dst cnts color width minA bg m e).2
      = (cnts.filter (keep_contour src minA bg m)).map (draw_call color width e) := by
  have key : ∀ (cnts : List Cnt) (st : NPImage × List RectCall),
      (cnts.foldl (draw_step src color width minA bg m e) st).2
        = st.2 ++ (cnts.filter (keep_contour src minA bg m)).map (draw_call color width e) := by
    intro cnts
    induction cnts with
    | nil => intro st; simp
    | cons c t ih =>
        intro st
        rw [List.foldl_cons, ih, List.filter_cons]
        by_cases ha : contourArea c < minA
        · have hk : keep_contour src minA bg m c = false := by
            simp [keep_contour, ha]
          have hstep : draw_step src color width minA bg m e st c = st := by
            simp [draw_step, ha]
          rw [hstep, hk]
          simp
        · by_cases hb : bg_skip src bg m (boundingRect c).1 (boundingRect c).2.1
              (boundingRect c).2.2.1 (boundingRect c).2.2.2
          · have hk : keep_contour src minA bg m c = false := by
              simp [keep_contour, hb]
            have hstep : draw_step src color width minA bg m e st c = st := by
              simp [draw_step, ha, hb]
            rw [hstep, hk]
            simp
          · have hk : keep_contour src minA bg m c = true := by
              simp [keep_contour, ha, hb]
            have hstep : (draw_step src color width minA bg m e st c).2
                = st.2 ++ [draw_call color width e c] := by
              simp [draw_step, ha, hb, draw_call]
            rw [hstep, hk]
            simp
  exact key cnts (dst, [])

/-- C5 amended: in the last step of `difference`, every surviving merged
region is drawn on a copy of the original page with the configured line color
and line width, as an outlined rectangle placed at exactly the region's
bounding box — no extension margin is applied there (the fixed margin 1 is
applied to the filled rectangles of the merge rounds instead). -/
theorem draw_output_contour_exact_bbox (s : Settings) (src : NPImage) (cnts : List Cnt) :
    (draw_output_contour s src cnts).2
      = cnts.map (fun c =>
          (⟨((boundingRect c).1, (boundingRect c).2.1),
            ((boundingRect c).1 + (boundingRect c).2.2.1,
             (boundingRect c).2.1 + (boundingRect c).2.2.2),
            s.line_color, s.line_width⟩ : RectCall)) := by
  rw [draw_output_contour, draw_contours_calls]
  have hfilter : cnts.filter (keep_contour src 0 none 0) = cnts := by
    apply List.filter_eq_self.mpr
    intro c _
    have h0 : (0 : ℚ) ≤ contourArea c := by
      unfold contourArea
      rw [Rat.mkRat_eq_div]
      positivity
    simp [keep_contour, bg_skip, not_lt.mpr h0]
  rw [hfilter]
  apply List.map_congr_left
  intro c _
  simp [draw_call]

/-- C6: in `_draw_contours`, with a background color supplied, a contour is
drawn exactly when its area reaches `min_area` and it is not discarded by the
claimed background rule — bounding box shrunk inward by the fixed margin 20
on each axis exceeding 40, then discarded iff every pixel of the shrunk
interior of the side's own image equals the background color; with no
background color supplied (the `ignore_bg_rect = False` wiring of
`_extract_merged_mask_contour`), only the area filter discards contours. -/
theorem background_suppression_filter (src dst : NPImage) (color : RGB)
    (width : Int) (minA : ℚ) (bg : RGB) (e : Nat) (cnts : List Cnt) :
    ((draw_contours src dst cnts color width minA (some bg) bg_del_margin e).2
       = (cnts.filter (fun c => decide (minA ≤ contourArea c)
            && !(backgroundDiscard src bg c))).map (draw_call color width e))
    ∧ ((draw_contours src dst cnts color width minA none bg_del_margin e).2
       = (cnts.filter (fun c => decide (minA ≤ contourArea c))).map
           (draw_call color width e)) := by
  have harea : ∀ c : Cnt,
      (!(decide (contourArea c < minA))) = decide (minA ≤ contourArea c) := by
    intro c
    rcases lt_or_le (contourArea c) minA with h | h
    · rw [decide_eq_true h, decide_eq_false (not_le.mpr h)]
      rfl
    · rw [decide_eq_false (not_lt.mpr h), decide_eq_true h]
      rfl
  constructor
  · rw [draw_contours_calls]
    congr 1
    apply List.filter_congr
    intro c _
    have hbg : bg_skip src (some bg) bg_del_margin (boundingRect c).1 (boundingRect c).2.1
        (boundingRect c).2.2.1 (boundingRect c).2.2.2 = backgroundDiscard src bg c := by
      simp [bg_skip, backgroundDiscard, bg_del_margin]
    simp only [keep_contour]
    rw [harea, hbg]
  · rw [draw_contours_calls]
    congr 1
    apply List.filter_congr
    intro c _
    simp only [keep_contour, bg_skip, Bool.not_false, Bool.and_true]
    rw [harea]

/-- C3 amended: promotion happens only after the size check passes — for a
pair of same-shaped nonempty single-channel pages (width ≠ 3, where the
`shape[-1]` channel test behaves as intended), each page is promoted to
3 channels by replication before any comparison, and both returned images
are 3-channel of shape `h × w × 3`; a pair with differing shapes is instead
returned unchanged by the pass-through. -/
theorem difference_promotes_same_shape (s : Settings) (h w : Nat) (g1 g2 : Mat2)
    (hm1 : isMat2 g1 h w = true) (hm2 : isMat2 g2 h w = true)
    (hh : 0 < h) (hw : 0 < w) (hw3 : w ≠ 3) :
    convert_to_color (.gray g1) = .ok (.color (promoteGray g1))
    ∧ ∃ d1 d2 : Mat3,
        difference s (.gray g1) (.gray g2) = .ok (.color d1, .color d2)
        ∧ (NPImage.color d1).shape = [h, w, 3]
        ∧ (NPImage.color d2).shape = [h, w, 3] := by
  have hd1 := isMat2_dims2 g1 h w hm1
  have hd2 := isMat2_dims2 g2 h w hm2
  have hp1 := promoteGray_dims g1 h w hd1
  have hp2 := promoteGray_dims g2 h w hd2
  refine ⟨convert_gray_of_dims g1 h w hd1 hh hw3, ?_⟩
  have hsame : image_same_size (.gray g1) (.gray g2) = true := by
    simp [image_same_size, shape_gray_of_dims g1 h w hd1 hh,
      shape_gray_of_dims g2 h w hd2 hh]
  obtain ⟨mv, hmv⟩ := mask_ok_of_dims (promoteGray g1) (promoteGray g2) h w hp1 hp2 hh hw
  obtain ⟨cn1, hcn1⟩ := extract_ok s (promoteGray g1) h w hp1 hh hw mv n_merge_mask
  obtain ⟨cn2, hcn2⟩ := extract_ok s (promoteGray g2) h w hp2 hh hw mv n_merge_mask
  obtain ⟨d1, he1, hdd1⟩ := draw_fold_dims (.color (promoteGray g1)) s.line_color
    s.line_width 0 none 0 0 h w cn1 (promoteGray g1) [] hp1
  obtain ⟨d2, he2, hdd2⟩ := draw_fold_dims (.color (promoteGray g2)) s.line_color
    s.line_width 0 none 0 0 h w cn2 (promoteGray g2) [] hp2
  refine ⟨d1, d2, ?_, shape_color_of_dims d1 h w hdd1 hh hw,
    shape_color_of_dims d2 h w hdd2 hh hw⟩
  unfold difference
  rw [if_pos hsame, convert_gray_of_dims g1 h w hd1 hh hw3,
    convert_gray_of_dims g2 h w hd2 hh hw3]
  simp only [exceptBindOk]
  rw [hmv]
  simp only [exceptBindOk]
  rw [hcn1]
  simp only [exceptBindOk]
  rw [hcn2]
  simp only [exceptBindOk]
  have ho1 : (draw_output_contour s (.color (promoteGray g1)) cn1).1 = .color d1 := he1
  have ho2 : (draw_output_contour s (.color (promoteGray g2)) cn2).1 = .color d2 := he2
  rw [ho1, ho2]
  rfl

/-- Witness for `difference_promotes_same_shape` at the 1×1 single-channel
pages `[[5]]` and `[[200]]`. -/
theorem difference_promotes_same_shape_witness :
    isMat2 [[5]] 1 1 = true
    ∧ (convert_to_color (.gray [[5]]) = .ok (.color (promoteGray [[5]]))
       ∧ ∃ d1 d2 : Mat3,
           difference demoSettings (.gray [[5]]) (.gray [[200]])
             = .ok (.color d1, .color d2)
           ∧ (NPImage.color d1).shape = [1, 1, 3]
           ∧ (NPImage.color d2).shape = [1, 1, 3]) :=
  ⟨by decide,
   difference_promotes_same_shape demoSettings 1 1 [[5]] [[200]]
     (by decide) (by decide) (by decide) (by decide) (by decide)⟩

/-- C4 amended: self-diff with no annotated region holds after promotion —
for every nonempty well-formed 3-channel page `P`, `difference(P, P)` returns
the pair `(P, P)` itself (empty mask, no contours, nothing drawn), and for
every nonempty single-channel page of width ≠ 3 it returns two copies of the
page's 3-channel promotion rather than the page itself. -/
theorem difference_self_identity :
    (∀ (s : Settings) (h w : Nat) (rows : Mat3),
        isMat3 rows h w = true → 0 < h → 0 < w →
        difference s (.color rows) (.color rows) = .ok (.color rows, .color rows))
    ∧ (∀ (s : Settings) (h w : Nat) (g : Mat2),
        isMat2 g h w = true → 0 < h → 0 < w → w ≠ 3 →
        difference s (.gray g) (.gray g)
          = .ok (.color (promoteGray g), .color (promoteGray g))) := by
  constructor
  · intro s h w rows hm hh hw
    have hd := isMat3_dims3 rows h w hm
    exact difference_self_core s h w rows hd hh hw (.color rows)
      (by simp [image_same_size]) (convert_color_of_dims rows h w hd hh hw)
  · intro s h w g hm hh hw hw3
    have hd2 := isMat2_dims2 g h w hm
    exact difference_self_core s h w (promoteGray g) (promoteGray_dims g h w hd2)
      hh hw (.gray g) (by simp [image_same_size])
      (convert_gray_of_dims g h w hd2 hh hw3)

/-- Witness for `difference_self_identity` at the 3-channel page `[[[1,2,3]]]`
and the single-channel page `[[7]]`. -/
theorem difference_self_identity_witness :
    isMat3 [[[1, 2, 3]]] 1 1 = true
    ∧ difference demoSettings (.color [[[1, 2, 3]]]) (.color [[[1, 2, 3]]])
        = .ok (.color [[[1, 2, 3]]], .color [[[1, 2, 3]]])
    ∧ difference demoSettings (.gray [[7]]) (.gray [[7]])
        = .ok (.color (promoteGray [[7]]), .color (promoteGray [[7]])) :=
  ⟨by decide,
   difference_self_identity.1 demoSettings 1 1 [[[1, 2, 3]]]
     (by decide) (by decide) (by decide),
   difference_self_identity.2 demoSettings 1 1 [[7]]
     (by decide) (by decide) (by decide) (by decide)⟩

/-- C7 counterexample: on a 2-frame multi-frame image, `TiffImage.load_pages`
invokes the callback with `[0, 1]`, not with the claimed 1-based `[1, 2]`. -/
theorem tiff_callback_cex :
    (TiffImage.load_pages (fun x : Nat => x) [10, 20]).2 = [0, 1]
    ∧ ([0, 1] : List Nat) ≠ [1, 2] := by
  exact ⟨rfl, by decide⟩

/-- C7 amended: `PPTImage.load_pages` invokes the callback once per page in
document order with the 1-based counts `1..total`, while
`TiffImage.load_pages` invokes it once per page in document order with the
0-based counts `0..total-1`. -/
theorem load_pages_callback_trace :
    (∀ (α β : Type) (render : α → β) (slides : List α),
        (PPTImage.load_pages render slides).2 = List.range' 1 slides.length)
    ∧ (∀ (α β : Type) (render : α → β) (frames : List α),
        (TiffImage.load_pages render frames).2 = List.range frames.length) := by
  have hp : ∀ (α β : Type) (render : α → β) (i : Nat) (l : List α),
      (PPTImage.load_pages.go render i l).2 = List.range' i l.length := by
    intro α β render i l
    induction l generalizing i with
    | nil => simp [PPTImage.load_pages.go]
    | cons a t ih => simp [PPTImage.load_pages.go, ih, List.range'_succ]
  have htf : ∀ (α β : Type) (render : α → β) (i : Nat) (l : List α),
      (TiffImage.load_pages.go render i l).2 = List.range' i l.length := by
    intro α β render i l
    induction l generalizing i with
    | nil => simp [TiffImage.load_pages.go]
    | cons a t ih => simp [TiffImage.load_pages.go, ih, List.range'_succ]
  refine ⟨fun α β render slides => hp α β render 1 slides,
          fun α β render frames => ?_⟩
  rw [List.range_eq_range']
  exact htf α β render 0 frames

end RevView
